import Mathlib

/-!
Verification of the tag-delimited section extractor and prompt renderer of
generate_cover_letter.py.

Strings are modelled as lists of characters. Python operations used by the
code are embedded as total Lean functions:

- str.index(sub) is findSub (first occurrence of sub, scanning from the left;
  None models the ValueError branch, which extract_text catches);
- s[a:b] for non-negative a, b is pySlice (clamping, empty when b is at or
  before a);
- str.strip() is pyStrip (ASCII whitespace; the tags and responses the
  claims quantify over are ASCII, so the Unicode whitespace classes that
  CPython additionally strips are not modelled);
- str.format(resume_text=..., job_desc_text=...) is pyFormat, a single
  left-to-right scan replacing plain named fields, doubling braces, and
  failing on an unknown field name (KeyError) or a malformed template
  (ValueError).  Conversion and format-spec syntax inside a field is not
  used by this repository and is not modelled; unused keyword arguments are
  ignored, exactly as in CPython.
-/

/-- Python ASCII whitespace for str.strip: space, tab, newline, vertical
tab, form feed, carriage return. -/
def pyIsSpace (c : Char) : Bool :=
  c == ' ' || c == '\t' || c == '\n' || c == '\x0B' || c == '\x0C' || c == '\r'

/-- Python str.strip with no argument: remove leading and trailing
whitespace. -/
def pyStrip (s : List Char) : List Char :=
  ((s.dropWhile pyIsSpace).reverse.dropWhile pyIsSpace).reverse

/-- Does sub occur at the very start of t? -/
def matchesAt (sub t : List Char) : Bool :=
  match sub, t with
  | [], _ => true
  | _ :: _, [] => false
  | a :: as, b :: bs => a == b && matchesAt as bs

/-- Python str.index: position of the first occurrence of sub in t scanning
the whole of t from the left, none when sub does not occur (the ValueError
branch). -/
def findSub (t sub : List Char) : Option Nat :=
  match t with
  | [] => if matchesAt sub [] then some 0 else none
  | _ :: tl => if matchesAt sub t then some 0 else (findSub tl sub).map (fun k => k + 1)

/-- Python slice s[a:b] for non-negative indices a and b: characters at
positions a up to but excluding b, clamped to the length of s. -/
def pySlice (s : List Char) (a b : Nat) : List Char :=
  (s.take b).drop a

/-- extract_text from generate_cover_letter.py.  start_index is the first
occurrence of start_tag plus its length; end_index is the first occurrence
of end_tag in the ENTIRE text; the slice between them is stripped.  Either
index call raising ValueError (tag absent) is caught and mapped to None. -/
def extract_text (full_text start_tag end_tag : List Char) : Option (List Char) :=
  match findSub full_text start_tag with
  | none => none
  | some i =>
    match findSub full_text end_tag with
    | none => none
    | some e => some (pyStrip (pySlice full_text (i + start_tag.length) e))

/-- One named section with its start and end tags. -/
structure SectionSpec where
  name : String
  start_tag : List Char
  end_tag : List Char
  deriving DecidableEq

/-- The content dictionary built in generate_custom_content: one
extract_text call per section, keyed by the section name, in definition
order.  The source inlines four fixed calls; this is the same computation
over an explicit section list (fourSections below is the source's list). -/
def extract_sections (raw : List Char) (spec : List SectionSpec) :
    List (String × Option (List Char)) :=
  spec.map (fun s => (s.name, extract_text raw s.start_tag s.end_tag))

/-- Python truthiness test used by the validation list comprehension:
  missing_sections = [key for key, value in content.items() if not value]
None is falsy, and so is the empty string. -/
def pyFalsy : Option (List Char) → Bool
  | none => true
  | some s => s.isEmpty

/-- The missing_sections list comprehension of generate_custom_content:
keys whose value fails Python truthiness. -/
def missing_sections (content : List (String × Option (List Char))) : List String :=
  (content.filter (fun p => pyFalsy p.2)).map Prod.fst

/-- The four sections extracted by generate_custom_content, with the
source's exact keys and tags, in source order. -/
def fourSections : List SectionSpec :=
  [⟨"ai_hook_insight", "[HOOK_INSIGHT_START]".toList, "[HOOK_INSIGHT_END]".toList⟩,
   ⟨"ai_skill_alignment_paragraph", "[SKILL_ALIGNMENT_START]".toList, "[SKILL_ALIGNMENT_END]".toList⟩,
   ⟨"ai_quantifiable_achievement_paragraph", "[QUANTIFIABLE_ACHIEVEMENT_START]".toList, "[QUANTIFIABLE_ACHIEVEMENT_END]".toList⟩,
   ⟨"ai_culture_fit_paragraph", "[CULTURE_FIT_START]".toList, "[CULTURE_FIT_END]".toList⟩]

/-- Failure of str.format: unknown field name (KeyError) or malformed
template (ValueError). -/
inductive FmtError where
  | keyError : String → FmtError
  | valueError : FmtError
  deriving DecidableEq

/-- Scanner state of str.format: copying literal text, just saw an opening
brace, just saw a closing brace, or inside a replacement field accumulating
its name (reversed). -/
inductive FmtState where
  | lit : FmtState
  | lbrace : FmtState
  | rbrace : FmtState
  | fname : List Char → FmtState
  deriving DecidableEq

/-- Single left-to-right scan of str.format over the template.  A doubled
brace emits one literal brace; an opening brace otherwise starts a
replacement field; a single closing brace in literal text is an error; a
closing brace inside a field looks the accumulated name up among the
keyword arguments and splices the value in verbatim; an unterminated field
or a brace inside a field name is an error. -/
def pyFormatGo (subst : String → Option String) : FmtState → List Char → Except FmtError (List Char)
  | .lit, [] => Except.ok []
  | .lit, c :: rest =>
    if c = '{' then pyFormatGo subst .lbrace rest
    else if c = '}' then pyFormatGo subst .rbrace rest
    else Except.map (fun t => c :: t) (pyFormatGo subst .lit rest)
  | .lbrace, [] => Except.error FmtError.valueError
  | .lbrace, c :: rest =>
    if c = '{' then Except.map (fun t => '{' :: t) (pyFormatGo subst .lit rest)
    else if c = '}' then
      match subst (String.mk []) with
      | none => Except.error (FmtError.keyError (String.mk []))
      | some v => Except.map (fun t => v.toList ++ t) (pyFormatGo subst .lit rest)
    else pyFormatGo subst (.fname [c]) rest
  | .rbrace, [] => Except.error FmtError.valueError
  | .rbrace, c :: rest =>
    if c = '}' then Except.map (fun t => '}' :: t) (pyFormatGo subst .lit rest)
    else Except.error FmtError.valueError
  | .fname _, [] => Except.error FmtError.valueError
  | .fname acc, c :: rest =>
    if c = '}' then
      match subst (String.mk acc.reverse) with
      | none => Except.error (FmtError.keyError (String.mk acc.reverse))
      | some v => Except.map (fun t => v.toList ++ t) (pyFormatGo subst .lit rest)
    else if c = '{' then
      Except.error FmtError.valueError
    else
      pyFormatGo subst (.fname (c :: acc)) rest

deriving instance DecidableEq for Except

/-- str.format of a template against a keyword lookup. -/
def pyFormat (tmpl : List Char) (subst : String → Option String) : Except FmtError (List Char) :=
  pyFormatGo subst FmtState.lit tmpl

/-- The two keyword arguments passed at the format call site of
generate_custom_content. -/
def kwargs (resume_text job_desc_text : String) : String → Option String :=
  fun n =>
    if n = "resume_text" then some resume_text
    else if n = "job_desc_text" then some job_desc_text
    else none

/-- The render step: prompt_template.format(resume_text=resume_text,
job_desc_text=job_desc_text). -/
def render (prompt_template : List Char) (resume_text job_desc_text : String) :
    Except FmtError (List Char) :=
  pyFormat prompt_template (kwargs resume_text job_desc_text)

/-- A structured view of a template used only to STATE the render claims:
a template is literal text interleaved with named replacement fields. -/
inductive Seg where
  | txt : List Char → Seg
  | ph : String → Seg
  deriving DecidableEq

/-- The raw template text denoted by one segment. -/
def segText : Seg → List Char
  | .txt s => s
  | .ph n => '{' :: (n.toList ++ ['}'])

/-- The raw template text denoted by a segment list. -/
def tmplOfSegs (segs : List Seg) : List Char :=
  segs.foldr (fun s acc => segText s ++ acc) []

/-- The expected rendering of one segment: literal text is kept, each field
is replaced by the corresponding substitution value verbatim. -/
def substSeg (resume_text job_desc_text : String) : Seg → List Char
  | .txt s => s
  | .ph n => if n = "resume_text" then resume_text.toList else job_desc_text.toList

/-- The expected rendering of a segment list. -/
def substSegs (resume_text job_desc_text : String) (segs : List Seg) : List Char :=
  segs.foldr (fun s acc => substSeg resume_text job_desc_text s ++ acc) []

/-- A well-formed segment: literal text free of braces, and fields named
after one of the two supplied keyword arguments. -/
def goodSeg : Seg → Bool
  | .txt s => s.all (fun c => c != '{' && c != '}')
  | .ph n => n == "resume_text" || n == "job_desc_text"

/-! ## Supporting lemmas -/

theorem pySlice_nil_of_le (s : List Char) (a b : Nat) (h : b ≤ a) : pySlice s a b = [] := by
  unfold pySlice
  refine List.drop_eq_nil_iff.mpr ?_
  calc (s.take b).length ≤ b := by simp [List.length_take]
    _ ≤ a := h

theorem pySlice_append (a b c : List Char) :
    pySlice (a ++ b ++ c) a.length (a.length + b.length) = b := by
  unfold pySlice
  rw [@List.take_left' Char (a ++ b) c (a.length + b.length) (by simp)]
  exact List.drop_left a b

theorem pyStrip_nil : pyStrip [] = [] := rfl

theorem findSub_sound (t : List Char) : ∀ (sub : List Char) (i : Nat),
    findSub t sub = some i →
    matchesAt sub (t.drop i) = true ∧ ∀ j, j < i → matchesAt sub (t.drop j) = false := by
  induction t with
  | nil =>
    intro sub i h
    unfold findSub at h
    by_cases hm : matchesAt sub [] = true
    · rw [if_pos hm] at h
      injection h with h
      subst h
      exact ⟨hm, fun j hj => absurd hj (by omega)⟩
    · rw [if_neg hm] at h
      exact absurd h (by simp)
  | cons c tl ih =>
    intro sub i h
    unfold findSub at h
    by_cases hm : matchesAt sub (c :: tl) = true
    · rw [if_pos hm] at h
      injection h with h
      subst h
      exact ⟨hm, fun j hj => absurd hj (by omega)⟩
    · rw [if_neg hm] at h
      cases hfs : findSub tl sub with
      | none => rw [hfs] at h; exact absurd h (by simp)
      | some i0 =>
        rw [hfs] at h
        simp only [Option.map_some'] at h
        injection h with h
        subst h
        obtain ⟨h1, h2⟩ := ih sub i0 hfs
        refine ⟨by simpa using h1, ?_⟩
        intro j hj
        cases j with
        | zero => simpa using (Bool.eq_false_iff.mpr hm)
        | succ j0 =>
          have := h2 j0 (by omega)
          simpa using this

theorem except_map_map (f : List Char → List Char) (g : List Char → List Char)
    (e : Except FmtError (List Char)) :
    Except.map f (Except.map g e) = Except.map (fun t => f (g t)) e := by
  cases e <;> rfl

theorem pyFormatGo_lit_char (subst : String → Option String) (c : Char) (rest : List Char)
    (h1 : c ≠ '{') (h2 : c ≠ '}') :
    pyFormatGo subst FmtState.lit (c :: rest) =
      Except.map (fun t => c :: t) (pyFormatGo subst FmtState.lit rest) := by
  simp only [pyFormatGo]
  rw [if_neg h1, if_neg h2]

theorem pyFormatGo_lit_append (subst : String → Option String) (s : List Char)
    (h : ∀ c ∈ s, c ≠ '{' ∧ c ≠ '}') (rest : List Char) :
    pyFormatGo subst FmtState.lit (s ++ rest) =
      Except.map (fun t => s ++ t) (pyFormatGo subst FmtState.lit rest) := by
  induction s with
  | nil =>
    simp only [List.nil_append]
    cases pyFormatGo subst FmtState.lit rest <;> rfl
  | cons c s ih =>
    have hc := h c (List.mem_cons_self c s)
    have hs : ∀ x ∈ s, x ≠ '{' ∧ x ≠ '}' := fun x hx => h x (List.mem_cons_of_mem c hx)
    rw [List.cons_append, pyFormatGo_lit_char subst c (s ++ rest) hc.1 hc.2, ih hs,
      except_map_map]
    rfl

theorem pyFormatGo_fname (subst : String → Option String) (nm : List Char) :
    ∀ (acc rest : List Char), (∀ c ∈ nm, c ≠ '}' ∧ c ≠ '{') →
    pyFormatGo subst (FmtState.fname acc) (nm ++ '}' :: rest) =
      match subst (String.mk (acc.reverse ++ nm)) with
      | none => Except.error (FmtError.keyError (String.mk (acc.reverse ++ nm)))
      | some v => Except.map (fun t => v.toList ++ t) (pyFormatGo subst FmtState.lit rest) := by
  induction nm with
  | nil =>
    intro acc rest _
    simp only [List.nil_append, List.append_nil]
    simp only [pyFormatGo]
    simp only [if_true]
  | cons c nm ih =>
    intro acc rest h
    have hc := h c (List.mem_cons_self c nm)
    have hs : ∀ x ∈ nm, x ≠ '}' ∧ x ≠ '{' := fun x hx => h x (List.mem_cons_of_mem c hx)
    rw [List.cons_append]
    simp only [pyFormatGo]
    rw [if_neg hc.1, if_neg hc.2]
    rw [ih (c :: acc) rest hs]
    simp only [List.reverse_cons, List.append_assoc, List.singleton_append]

theorem pyFormatGo_field (subst : String → Option String) (nm : List Char)
    (rest : List Char) (v : String) (hnm : ∀ c ∈ nm, c ≠ '}' ∧ c ≠ '{')
    (hv : subst (String.mk nm) = some v) :
    pyFormatGo subst FmtState.lit ('{' :: (nm ++ '}' :: rest)) =
      Except.map (fun t => v.toList ++ t) (pyFormatGo subst FmtState.lit rest) := by
  simp only [pyFormatGo]
  simp only [if_true]
  cases nm with
  | nil =>
    simp only [List.nil_append]
    simp only [pyFormatGo]
    simp [hv]
  | cons c nm0 =>
    have hc := hnm c (List.mem_cons_self c nm0)
    have hs : ∀ x ∈ nm0, x ≠ '}' ∧ x ≠ '{' :=
      fun x hx => hnm x (List.mem_cons_of_mem c hx)
    rw [List.cons_append]
    simp only [pyFormatGo]
    rw [if_neg hc.2, if_neg hc.1]
    rw [pyFormatGo_fname subst nm0 [c] rest hs]
    simp only [List.reverse_cons, List.reverse_nil, List.nil_append, List.singleton_append]
    rw [hv]

theorem kwargs_resume (resume_text job_desc_text : String) :
    kwargs resume_text job_desc_text (String.mk "resume_text".toList) = some resume_text := by
  show kwargs resume_text job_desc_text "resume_text" = some resume_text
  unfold kwargs
  rw [if_pos rfl]

theorem kwargs_job (resume_text job_desc_text : String) :
    kwargs resume_text job_desc_text (String.mk "job_desc_text".toList) = some job_desc_text := by
  show kwargs resume_text job_desc_text "job_desc_text" = some job_desc_text
  unfold kwargs
  rw [if_neg (by decide), if_pos rfl]

theorem render_segs (resume_text job_desc_text : String) : ∀ (segs : List Seg),
    (∀ s ∈ segs, goodSeg s = true) →
    render (tmplOfSegs segs) resume_text job_desc_text =
      Except.ok (substSegs resume_text job_desc_text segs) := by
  intro segs
  induction segs with
  | nil => intro _; rfl
  | cons s segs ih =>
    intro hgood
    have hgs : ∀ x ∈ segs, goodSeg x = true :=
      fun x hx => hgood x (List.mem_cons_of_mem s hx)
    have hrec := ih hgs
    unfold render pyFormat at hrec ⊢
    have htm : tmplOfSegs (s :: segs) = segText s ++ tmplOfSegs segs := rfl
    have hsb : substSegs resume_text job_desc_text (s :: segs) =
        substSeg resume_text job_desc_text s ++ substSegs resume_text job_desc_text segs := rfl
    rw [htm, hsb]
    cases s with
    | txt t =>
      have hg := hgood (Seg.txt t) (List.mem_cons_self _ _)
      have hall : ∀ c ∈ t, c ≠ '{' ∧ c ≠ '}' := by
        simpa [goodSeg, List.all_eq_true] using hg
      rw [show segText (Seg.txt t) = t from rfl,
        pyFormatGo_lit_append (kwargs resume_text job_desc_text) t hall, hrec]
      rfl
    | ph n =>
      have hg := hgood (Seg.ph n) (List.mem_cons_self _ _)
      have hn : n = "resume_text" ∨ n = "job_desc_text" := by
        simpa [goodSeg] using hg
      rcases hn with hn | hn <;> subst hn
      · rw [show segText (Seg.ph "resume_text") ++ tmplOfSegs segs =
            '{' :: ("resume_text".toList ++ '}' :: tmplOfSegs segs) by
            simp [segText, List.append_assoc]]
        rw [pyFormatGo_field (kwargs resume_text job_desc_text) "resume_text".toList
          (tmplOfSegs segs) resume_text (by decide) (kwargs_resume _ _), hrec]
        rw [show substSeg resume_text job_desc_text (Seg.ph "resume_text") =
          resume_text.toList from rfl]
        rfl
      · rw [show segText (Seg.ph "job_desc_text") ++ tmplOfSegs segs =
            '{' :: ("job_desc_text".toList ++ '}' :: tmplOfSegs segs) by
            simp [segText, List.append_assoc]]
        rw [pyFormatGo_field (kwargs resume_text job_desc_text) "job_desc_text".toList
          (tmplOfSegs segs) job_desc_text (by decide) (kwargs_job _ _), hrec]
        rw [show substSeg resume_text job_desc_text (Seg.ph "job_desc_text") =
          job_desc_text.toList by simp [substSeg]]
        rfl

theorem substSegs_no_brace (resume_text job_desc_text : String)
    (hr : ∀ c ∈ resume_text.toList, c ≠ '{' ∧ c ≠ '}')
    (hj : ∀ c ∈ job_desc_text.toList, c ≠ '{' ∧ c ≠ '}') :
    ∀ (segs : List Seg), (∀ s ∈ segs, goodSeg s = true) →
      ∀ c ∈ substSegs resume_text job_desc_text segs, c ≠ '{' ∧ c ≠ '}' := by
  intro segs
  induction segs with
  | nil =>
    intro _ c hc
    exact absurd hc (by simp [substSegs])
  | cons s segs ih =>
    intro hgood c hc
    have hsb : substSegs resume_text job_desc_text (s :: segs) =
        substSeg resume_text job_desc_text s ++ substSegs resume_text job_desc_text segs := rfl
    rw [hsb] at hc
    rcases List.mem_append.mp hc with h1 | h2
    · cases s with
      | txt t =>
        have hg := hgood (Seg.txt t) (List.mem_cons_self _ _)
        have hall : ∀ x ∈ t, x ≠ '{' ∧ x ≠ '}' := by
          simpa [goodSeg, List.all_eq_true] using hg
        exact hall c h1
      | ph n =>
        by_cases hn : n = "resume_text"
        · refine hr c ?_
          simpa [substSeg, hn] using h1
        · refine hj c ?_
          simpa [substSeg, hn] using h1
    · exact ih (fun x hx => hgood x (List.mem_cons_of_mem s hx)) c h2

/-! ## Claims -/

/-- C1: for every raw text in which the first occurrence of the start tag
is at the end of pre and the first occurrence of the end tag is right after
mid, extract_text returns exactly the substring mid lying strictly between
the end of the first start-tag occurrence and the first end-tag occurrence,
with leading and trailing whitespace removed. -/
theorem spec_C1 (pre start_tag mid end_tag post : List Char)
    (hs : findSub (pre ++ start_tag ++ mid ++ end_tag ++ post) start_tag = some pre.length)
    (he : findSub (pre ++ start_tag ++ mid ++ end_tag ++ post) end_tag =
      some (pre.length + start_tag.length + mid.length)) :
    extract_text (pre ++ start_tag ++ mid ++ end_tag ++ post) start_tag end_tag =
      some (pyStrip mid) := by
  simp only [extract_text, hs, he]
  have h := pySlice_append (pre ++ start_tag) mid (end_tag ++ post)
  simp only [List.append_assoc, List.length_append] at h ⊢
  rw [h]

/-- Witness for C1 at the concrete scenario of the spec. -/
theorem spec_C1_witness :
    extract_text "noise [A_START]  hello world  [A_END] noise".toList
      "[A_START]".toList "[A_END]".toList = some "hello world".toList := by
  have e : "noise [A_START]  hello world  [A_END] noise".toList =
      "noise ".toList ++ "[A_START]".toList ++ "  hello world  ".toList ++
        "[A_END]".toList ++ " noise".toList := by decide
  rw [e]
  have h := spec_C1 "noise ".toList "[A_START]".toList "  hello world  ".toList
    "[A_END]".toList " noise".toList (by decide) (by decide)
  exact h.trans (by decide)

/-- C2 counterexample: a template that omits the job-description
placeholder does NOT fail; str.format ignores unused keyword arguments and
returns the template with the present placeholder substituted. -/
theorem spec_C2_counterexample :
    render "Resume: {resume_text}".toList "R" "J" = Except.ok "Resume: R".toList := by
  decide

/-- C2 amended: rendering a template missing one or both placeholders
succeeds rather than raising: a brace-free template (omitting both
placeholders) renders to itself, and a template holding only the resume
placeholder renders with that placeholder substituted, for all substitution
values. -/
theorem spec_C2_amended :
    (∀ (tmpl : List Char), (∀ c ∈ tmpl, c ≠ '{' ∧ c ≠ '}') →
      ∀ (resume_text job_desc_text : String),
        render tmpl resume_text job_desc_text = Except.ok tmpl)
    ∧ ∀ (resume_text job_desc_text : String),
        render "Resume: {resume_text}".toList resume_text job_desc_text =
          Except.ok ("Resume: ".toList ++ resume_text.toList) := by
  constructor
  · intro tmpl h r j
    unfold render pyFormat
    have hl := pyFormatGo_lit_append (kwargs r j) tmpl h []
    rw [List.append_nil] at hl
    rw [hl]
    simp [pyFormatGo, Except.map]
  · intro r j
    unfold render pyFormat
    have e : "Resume: {resume_text}".toList =
        "Resume: ".toList ++ ('{' :: ("resume_text".toList ++ '}' :: [])) := by decide
    rw [e, pyFormatGo_lit_append (kwargs r j) "Resume: ".toList (by decide) _,
      pyFormatGo_field (kwargs r j) "resume_text".toList [] r (by decide) (kwargs_resume r j)]
    simp [pyFormatGo, Except.map]

/-- Witness for C2 amended at a concrete brace-free template. -/
theorem spec_C2_amended_witness :
    render "abc".toList "R" "J" = Except.ok "abc".toList :=
  spec_C2_amended.1 "abc".toList (by decide) "R" "J"

/-- C3 counterexample: a section whose tags are both present but whose
content strips to the empty string is mapped to a present string, yet is
reported missing, because the validation uses Python truthiness. -/
theorem spec_C3_counterexample :
    ("ai_hook_insight", some ([] : List Char)) ∈
      extract_sections ("[HOOK_INSIGHT_START][HOOK_INSIGHT_END][SKILL_ALIGNMENT_START]s[SKILL_ALIGNMENT_END][QUANTIFIABLE_ACHIEVEMENT_START]q[QUANTIFIABLE_ACHIEVEMENT_END][CULTURE_FIT_START]c[CULTURE_FIT_END]".toList) fourSections
    ∧ "ai_hook_insight" ∈ missing_sections (extract_sections
        ("[HOOK_INSIGHT_START][HOOK_INSIGHT_END][SKILL_ALIGNMENT_START]s[SKILL_ALIGNMENT_END][QUANTIFIABLE_ACHIEVEMENT_START]q[QUANTIFIABLE_ACHIEVEMENT_END][CULTURE_FIT_START]c[CULTURE_FIT_END]".toList) fourSections) := by
  constructor
  · decide
  · decide

/-- C3 amended: a section name is in the missing-sections list exactly when
its mapped value is Python-falsy, that is the absence marker OR the empty
string; a section whose value is a nonempty string is never reported
missing. -/
theorem spec_C3_amended (raw : List Char) (spec : List SectionSpec) (nm : String) :
    nm ∈ missing_sections (extract_sections raw spec) ↔
      ∃ v, (nm, v) ∈ extract_sections raw spec ∧ pyFalsy v = true := by
  unfold missing_sections
  constructor
  · intro h
    rcases List.mem_map.mp h with ⟨p, hp, hpn⟩
    rcases List.mem_filter.mp hp with ⟨hpm, hpf⟩
    refine ⟨p.2, ?_, hpf⟩
    rw [← hpn]
    simpa using hpm
  · rintro ⟨v, hv, hf⟩
    exact List.mem_map.mpr ⟨(nm, v), List.mem_filter.mpr ⟨hv, hf⟩, rfl⟩

/-- C4: when both tags occur, the end index used by extract_text is the
position e reported by the global scan: the result is the stripped slice up
to e, e is a match position of the end tag in the ENTIRE raw text, and no
earlier position of the entire raw text matches the end tag — in
particular the scan is not restricted to the region after the start tag. -/
theorem spec_C4 (raw start_tag end_tag : List Char) (i e : Nat)
    (hs : findSub raw start_tag = some i) (he : findSub raw end_tag = some e) :
    extract_text raw start_tag end_tag = some (pyStrip (pySlice raw (i + start_tag.length) e))
    ∧ matchesAt end_tag (raw.drop e) = true
    ∧ ∀ j, j < e → matchesAt end_tag (raw.drop j) = false := by
  obtain ⟨h1, h2⟩ := findSub_sound raw end_tag e he
  exact ⟨by simp only [extract_text, hs, he], h1, h2⟩

/-- Witness for C4 at a raw text whose end tag first occurs before the
start tag: the end index used is that earlier global occurrence. -/
theorem spec_C4_witness :
    extract_text "[B_END]x[B_START]y[B_END]z".toList "[B_START]".toList "[B_END]".toList =
      some []
    ∧ matchesAt "[B_END]".toList ("[B_END]x[B_START]y[B_END]z".toList.drop 0) = true := by
  have h := spec_C4 "[B_END]x[B_START]y[B_END]z".toList "[B_START]".toList "[B_END]".toList
    8 0 (by decide) (by decide)
  exact ⟨h.1.trans (by decide), h.2.1⟩

/-- C5: a section whose start tag or end tag does not occur in the raw text
is mapped to the absence marker and its name appears in the
missing-sections list. -/
theorem spec_C5 (raw : List Char) (spec : List SectionSpec) (s : SectionSpec)
    (hmem : s ∈ spec)
    (habs : findSub raw s.start_tag = none ∨ findSub raw s.end_tag = none) :
    (s.name, (none : Option (List Char))) ∈ extract_sections raw spec ∧
      s.name ∈ missing_sections (extract_sections raw spec) := by
  have hnone : extract_text raw s.start_tag s.end_tag = none := by
    rcases habs with h | h
    · simp [extract_text, h]
    · rcases h1 : findSub raw s.start_tag with _ | i <;> simp [extract_text, h1, h]
  have hpair : (s.name, (none : Option (List Char))) ∈ extract_sections raw spec := by
    unfold extract_sections
    refine List.mem_map.mpr ⟨s, hmem, ?_⟩
    rw [hnone]
  refine ⟨hpair, ?_⟩
  unfold missing_sections
  refine List.mem_map.mpr ⟨(s.name, none), List.mem_filter.mpr ⟨hpair, rfl⟩, rfl⟩

/-- Witness for C5 at the concrete scenario of the spec: a raw text with no
tags at all. -/
theorem spec_C5_witness :
    ("ai_hook_insight", (none : Option (List Char))) ∈
      extract_sections "no tags here".toList fourSections
    ∧ "ai_hook_insight" ∈ missing_sections
        (extract_sections "no tags here".toList fourSections) :=
  spec_C5 "no tags here".toList fourSections
    ⟨"ai_hook_insight", "[HOOK_INSIGHT_START]".toList, "[HOOK_INSIGHT_END]".toList⟩
    (by decide) (Or.inl (by decide))

/-- C6: when the first occurrence of the end tag begins before the end of
the first occurrence of the start tag, extraction does not fail: the
reversed positional slice is empty and stripping it leaves the empty
string. -/
theorem spec_C6 (raw start_tag end_tag : List Char) (i e : Nat)
    (hs : findSub raw start_tag = some i) (he : findSub raw end_tag = some e)
    (hlt : e < i + start_tag.length) :
    extract_text raw start_tag end_tag = some [] := by
  simp only [extract_text, hs, he]
  rw [pySlice_nil_of_le raw (i + start_tag.length) e (le_of_lt hlt)]
  rfl

/-- Witness for C6 at a raw text whose end tag occurs wholly before the
start tag. -/
theorem spec_C6_witness :
    extract_text "[A_END]x[A_START]y".toList "[A_START]".toList "[A_END]".toList = some [] :=
  spec_C6 "[A_END]x[A_START]y".toList "[A_START]".toList "[A_END]".toList 8 0
    (by decide) (by decide) (by decide)

/-- C7 counterexample: the template holds both placeholders and render
substitutes verbatim, yet a placeholder marker remains in the output,
because a substitution value may itself contain the marker and format does
not rescan spliced values. -/
theorem spec_C7_counterexample :
    render "{resume_text}{job_desc_text}".toList "{resume_text}" "x" =
      Except.ok "{resume_text}x".toList
    ∧ findSub "{resume_text}x".toList "{resume_text}".toList = some 0 := by
  constructor
  · decide
  · decide

/-- C7 amended: for every template made of brace-free literal text and the
two known placeholders, holding both, render returns the template with each
placeholder replaced by the corresponding value verbatim; and when the
substituted values themselves contain no braces, no brace (hence no
placeholder marker) remains in the output. -/
theorem spec_C7_amended (segs : List Seg) (resume_text job_desc_text : String)
    (hgood : ∀ s ∈ segs, goodSeg s = true)
    (_hres : Seg.ph "resume_text" ∈ segs) (_hjob : Seg.ph "job_desc_text" ∈ segs) :
    render (tmplOfSegs segs) resume_text job_desc_text =
      Except.ok (substSegs resume_text job_desc_text segs)
    ∧ ((∀ c ∈ resume_text.toList, c ≠ '{' ∧ c ≠ '}') →
       (∀ c ∈ job_desc_text.toList, c ≠ '{' ∧ c ≠ '}') →
       ∀ c ∈ substSegs resume_text job_desc_text segs, c ≠ '{' ∧ c ≠ '}') := by
  refine ⟨render_segs resume_text job_desc_text segs hgood, ?_⟩
  intro hr hj
  exact substSegs_no_brace resume_text job_desc_text hr hj segs hgood

/-- Witness for C7 amended at the spec's concrete template shape. -/
theorem spec_C7_amended_witness :
    render "{resume_text} {job_desc_text}".toList "R" "J" = Except.ok "R J".toList := by
  have h := spec_C7_amended
    [Seg.ph "resume_text", Seg.txt " ".toList, Seg.ph "job_desc_text"] "R" "J"
    (by decide) (by decide) (by decide)
  have e1 : tmplOfSegs [Seg.ph "resume_text", Seg.txt " ".toList, Seg.ph "job_desc_text"] =
      "{resume_text} {job_desc_text}".toList := by decide
  have e2 : substSegs "R" "J"
      [Seg.ph "resume_text", Seg.txt " ".toList, Seg.ph "job_desc_text"] = "R J".toList := by
    decide
  rw [← e1, ← e2]
  exact h.1

/-- C8: extraction is deterministic: two runs of the extractor on the same
raw text and section specification yield identical content mappings and
identical missing-sections lists (the embedding of the straight-line source
is a pure function, so determinism and absence of side effects are
inherent). -/
theorem spec_C8 (raw : List Char) (spec : List SectionSpec)
    (r1 r2 : List (String × Option (List Char)))
    (h1 : r1 = extract_sections raw spec) (h2 : r2 = extract_sections raw spec) :
    r1 = r2 ∧ missing_sections r1 = missing_sections r2 := by
  subst h1
  subst h2
  exact ⟨rfl, rfl⟩

/-- Witness for C8 on a concrete raw text and the source's section list. -/
theorem spec_C8_witness :
    extract_sections "x".toList fourSections = extract_sections "x".toList fourSections
    ∧ missing_sections (extract_sections "x".toList fourSections) =
        missing_sections (extract_sections "x".toList fourSections) :=
  spec_C8 "x".toList fourSections
    (extract_sections "x".toList fourSections)
    (extract_sections "x".toList fourSections) rfl rfl

/-- C9: each section is extracted from the raw text independently, so
permuting the section specification permutes the content list and the
missing-sections list accordingly: no section's extracted value and no
membership in the missing set changes (the tag-uniqueness hypothesis of the
claim is stated but not even needed). -/
theorem spec_C9 (raw : List Char) (spec1 spec2 : List SectionSpec)
    (_huniq : ((spec1.map SectionSpec.start_tag) ++ (spec1.map SectionSpec.end_tag)).Nodup)
    (hperm : spec1.Perm spec2) :
    (extract_sections raw spec1).Perm (extract_sections raw spec2) ∧
      (missing_sections (extract_sections raw spec1)).Perm
        (missing_sections (extract_sections raw spec2)) := by
  refine ⟨hperm.map _, ?_⟩
  unfold missing_sections extract_sections
  exact ((hperm.map _).filter _).map _

/-- Witness for C9 on a two-section specification and its reversal. -/
theorem spec_C9_witness :
    (extract_sections "[A1]u[A2][B1]v[B2]".toList
        [⟨"a", "[A1]".toList, "[A2]".toList⟩, ⟨"b", "[B1]".toList, "[B2]".toList⟩]).Perm
      (extract_sections "[A1]u[A2][B1]v[B2]".toList
        [⟨"b", "[B1]".toList, "[B2]".toList⟩, ⟨"a", "[A1]".toList, "[A2]".toList⟩])
    ∧ (missing_sections (extract_sections "[A1]u[A2][B1]v[B2]".toList
        [⟨"a", "[A1]".toList, "[A2]".toList⟩, ⟨"b", "[B1]".toList, "[B2]".toList⟩])).Perm
      (missing_sections (extract_sections "[A1]u[A2][B1]v[B2]".toList
        [⟨"b", "[B1]".toList, "[B2]".toList⟩, ⟨"a", "[A1]".toList, "[A2]".toList⟩])) :=
  spec_C9 "[A1]u[A2][B1]v[B2]".toList
    [⟨"a", "[A1]".toList, "[A2]".toList⟩, ⟨"b", "[B1]".toList, "[B2]".toList⟩]
    [⟨"b", "[B1]".toList, "[B2]".toList⟩, ⟨"a", "[A1]".toList, "[A2]".toList⟩]
    (by decide) (by decide)

/-- C10: single-section extraction is total by construction (it returns an
Option and the embedding is a total function), and its only failure mode is
a tag not being found: the absence marker is returned exactly when the
start tag or the end tag does not occur in the raw text. -/
theorem spec_C10 (raw start_tag end_tag : List Char) :
    extract_text raw start_tag end_tag = none ↔
      findSub raw start_tag = none ∨ findSub raw end_tag = none := by
  rcases h1 : findSub raw start_tag with _ | i <;>
    rcases h2 : findSub raw end_tag with _ | e <;>
    simp [extract_text, h1, h2]
